import Mathlib

/-!
# Verification of the Theia debug-session core

Shallow embedding of `src/packages/debug/src/browser/debug-session.tsx`
(class `DebugSession`) and of the `DebugSessionManager` class found in the
second part of
`src/packages/filesystem/src/electron-browser/file-dialog/electron-file-dialog-service.ts`.

JavaScript `Map` objects are embedded as association lists with the
`Map` iteration contract: `set` on an existing key overwrites the value in
place (keeping the original insertion position), `set` on a fresh key
appends, and `values()` iterates in insertion order.

The model classes `DebugThread`, `DebugBreakpoint`, the configuration type
`DebugConfiguration` and the store `BreakpointManager` are imported by the
sources but their files are not in the excerpt; they are modelled from the
specification (each such definition's doc comment says so). Adapter round
trips are embedded as explicit oracle arguments: each function that awaits a
response takes the adapter's answer (an `Except` value) as a parameter, and
functions that send requests additionally return the list of requests they
issued, in order.
-/

deriving instance DecidableEq for Except

namespace Theia

/-! ## Association lists with JavaScript Map semantics -/

/-- `Map.get`: the value stored at key `k`, if any. -/
def alGet {α β : Type} [DecidableEq α] (m : List (α × β)) (k : α) : Option β :=
  (m.find? (fun p => p.1 = k)).map (·.2)

/-- `Map.set`: overwrite in place when the key is present, append otherwise
(JavaScript `Map` keeps the first-insertion position of a key). -/
def alSet {α β : Type} [DecidableEq α] (m : List (α × β)) (k : α) (v : β) :
    List (α × β) :=
  match m with
  | [] => [(k, v)]
  | p :: rest => if p.1 = k then (k, v) :: rest else p :: alSet rest k v

/-- The keys of an association list, in insertion order. -/
def alKeys {α β : Type} (m : List (α × β)) : List α := m.map (·.1)

/-! ## Breakpoint data model -/

/-- `DebugProtocol.SourceBreakpoint` together with the store's enabled flag: a
user-declared (requested) breakpoint for one resource, as held by the
breakpoint store. -/
structure SourceBreakpoint where
  line : Nat
  column : Nat := 0
  enabled : Bool := true
deriving DecidableEq, Repr

/-- `DebugProtocol.Breakpoint`: the adapter's verification result for one sent
breakpoint (possibly relocated to another line). -/
structure RawBreakpoint where
  line : Nat
  verified : Bool := true
deriving DecidableEq, Repr

/-- Modelled from the spec: class `DebugBreakpoint` (`model/debug-breakpoint`,
not in the excerpt). A logical breakpoint: the list of originating declarations
(`origins`, nonempty in every state the code constructs, head = `origin`, the
representative declaration) and the optional adapter-assigned verification
result `raw`. Its line is the adapter-reported line when a verification result
is present, else the requested line. -/
structure DebugBreakpoint where
  origins : List SourceBreakpoint
  raw : Option RawBreakpoint := none
deriving DecidableEq, Repr

/-- `this.origin`: the representative (first) originating declaration. -/
def DebugBreakpoint.origin (b : DebugBreakpoint) : SourceBreakpoint :=
  b.origins.headD { line := 0 }

/-- `get line()`: adapter-reported line if a verification result is present,
else the requested line. -/
def DebugBreakpoint.line (b : DebugBreakpoint) : Nat :=
  match b.raw with
  | some r => r.line
  | none => b.origin.line

/-- `get enabled()`: the enabled flag of the representative declaration. -/
def DebugBreakpoint.enabled (b : DebugBreakpoint) : Bool :=
  b.origin.enabled

/-- `new DebugBreakpoint(data, ...)`: a fresh logical breakpoint for one stored
declaration; no adapter verification result yet. -/
def DebugBreakpoint.mk0 (o : SourceBreakpoint) : DebugBreakpoint :=
  { origins := [o], raw := none }

/-- The tie-break test of `dedupBreakpoints`:
`secondary.raw && secondary.raw.line === secondary.origin.raw.line`. -/
def DebugBreakpoint.rawMatchesOrigin (b : DebugBreakpoint) : Bool :=
  match b.raw with
  | some r => r.line == b.origin.line
  | none => false

/-- One loop iteration of `DebugSession.dedupBreakpoints` over the `lines` map
(`debug-session.tsx:416-426`): look up the primary at the breakpoint's line;
on a collision swap primary and secondary when the newcomer's adapter-reported
line still equals its requested line, append the secondary's origins to the
primary's, and store the primary back under its line. -/
def dedupStep (m : List (Nat × DebugBreakpoint)) (b : DebugBreakpoint) :
    List (Nat × DebugBreakpoint) :=
  match alGet m b.line with
  | none => alSet m b.line b
  | some p =>
      if b.rawMatchesOrigin then
        alSet m b.line { b with origins := b.origins ++ p.origins }
      else
        alSet m b.line { p with origins := p.origins ++ b.origins }

/-- `DebugSession.dedupBreakpoints` (`debug-session.tsx:414-428`): fold the
input through the `lines` map and return `[...lines.values()]` in insertion
order. -/
def dedupBreakpoints (all : List DebugBreakpoint) : List DebugBreakpoint :=
  (all.foldl dedupStep []).map (·.2)

/-- Well-formedness of the `lines` map built by `dedupBreakpoints`: every entry
is stored under its own line, its origin list is nonempty, and the keys are
distinct. -/
def LinesMapWF (m : List (Nat × DebugBreakpoint)) : Prop :=
  (∀ q ∈ m, q.2.line = q.1 ∧ q.2.origins ≠ []) ∧ (alKeys m).Nodup

/-! ## Breakpoint store -/

/-- Modelled from the spec: the `BreakpointManager` store (consumed contract
`findMarkers({uri?}) -> [{data}]`, `getUris()`; `breakpoint/breakpoint-manager`
is not in the excerpt). It persists the user-declared breakpoints per resource;
per the contract `getBreakpoint(uri, line) -> data | undefined` a resource holds
at most one declaration per line. -/
structure BreakpointStore where
  markers : List (String × List SourceBreakpoint) := []
deriving DecidableEq, Repr

/-- `breakpoints.findMarkers({ uri })` for a concrete uri: the declarations
stored for that resource. -/
def findMarkersFor (store : BreakpointStore) (uri : String) : List SourceBreakpoint :=
  (alGet store.markers uri).getD []

/-- `breakpoints.findMarkers({ uri })` with an optional uri filter: all
declarations when no uri is given. -/
def findMarkers (store : BreakpointStore) (uri : Option String) : List SourceBreakpoint :=
  match uri with
  | some u => findMarkersFor store u
  | none => store.markers.foldl (fun acc q => acc ++ q.2) []

/-- `breakpoints.getUris()`: the resources with a declared breakpoint. -/
def getUris (store : BreakpointStore) : List String := alKeys store.markers

/-! ## Threads -/

/-- `DebugProtocol.Thread`: one element of a `threads` response. -/
structure RawThread where
  id : Nat
  name : String := ""
deriving DecidableEq, Repr

/-- The body of a `stopped` event (`StoppedDetails`): the fields the session
core reads. `threadId` is optional in the protocol. -/
structure StoppedDetails where
  threadId : Option Nat := none
  preserveFocusHint : Bool := false
  reason : String := ""
deriving DecidableEq, Repr

/-- Modelled from the spec: class `DebugThread` (`model/debug-thread`, not in
the excerpt). A thread is stopped exactly when it carries stop details;
`update` overwrites both `raw` and `stoppedDetails` with the supplied data
("contents are always overwritten from the latest stopped/threads response"),
and `clear` drops the stop state. -/
structure DebugThread where
  raw : RawThread
  stoppedDetails : Option StoppedDetails := none
deriving DecidableEq, Repr

/-- `thread.stopped`: whether the thread carries stop details. -/
def DebugThread.stopped (t : DebugThread) : Bool :=
  t.stoppedDetails.isSome

/-- `thread.clear()`: drop the stop state (and cached frames, not modelled). -/
def DebugThread.clear (t : DebugThread) : DebugThread :=
  { t with stoppedDetails := none }

/-! ## Capabilities -/

/-- The negotiated capability set `DebugProtocol.Capabilities`, embedded as a
JavaScript object: a finite map from capability name to value, holding exactly
the fields that have been assigned so far. -/
abbrev Capabilities := List (String × Bool)

/-- `Object.assign(target, source)`: copy each own property of `source` onto
`target`, in source order. -/
def objectAssign (target source : Capabilities) : Capabilities :=
  source.foldl (fun t p => alSet t p.1 p.2) target

/-- `capabilities.supportsConfigurationDoneRequest` (truthiness of a possibly
absent field). -/
def supportsConfigurationDone (caps : Capabilities) : Bool :=
  (alGet caps "supportsConfigurationDoneRequest").getD false

/-- `DebugSession.updateCapabilities` (`debug-session.tsx:367-369`), the
handler of the `capabilities` event:
`Object.assign(this._capabilities, capabilities)`. -/
def updateCapabilities (caps event : Capabilities) : Capabilities :=
  objectAssign caps event

/-! ## Session state -/

/-- `enum DebugState` (`debug-session.tsx:37-42`). -/
inductive DebugState where
  | Inactive
  | Initializing
  | Running
  | Stopped
deriving DecidableEq, Repr

/-- The numeric value of a `DebugState` member (TypeScript enums compare by
their numeric values). -/
def DebugState.toNat : DebugState → Nat
  | .Inactive => 0
  | .Initializing => 1
  | .Running => 2
  | .Stopped => 3

/-- The mutable state of one `DebugSession`: connection disposal flag,
`initialized` flag, negotiated capabilities, the thread map `_threads`, the
current thread (tracked by id; `updateCurrentThread` always re-points it at a
member of the map or at nothing), and the per-resource breakpoint map
`_breakpoints`. -/
structure Session where
  disposed : Bool := false
  initialized : Bool := false
  capabilities : Capabilities := []
  threads : List (Nat × DebugThread) := []
  currentThreadId : Option Nat := none
  breakpoints : List (String × List DebugBreakpoint) := []
deriving DecidableEq, Repr

/-- `this.currentThread`: the thread object the current-thread pointer refers
to. -/
def Session.currentThread (s : Session) : Option DebugThread :=
  s.currentThreadId.bind (alGet s.threads)

/-- `get state()` (`debug-session.tsx:202-214`): Inactive when the connection
is disposed; Initializing before `configure` finished; else the current
thread's stop flag decides, falling back to "any stopped thread" only when
there is no current thread. -/
def Session.state (s : Session) : DebugState :=
  if s.disposed then .Inactive
  else if !s.initialized then .Initializing
  else
    match s.currentThread with
    | some t => if t.stopped then .Stopped else .Running
    | none => if s.threads.any (fun q => q.2.stopped) then .Stopped else .Running

/-- JavaScript truthiness of the optional numeric field
`stoppedDetails.threadId` (`!!stoppedDetails.threadId`): present and nonzero. -/
def truthyThreadId : Option Nat → Bool
  | some n => n != 0
  | none => false

/-- The focus decision of `DebugSession.updateCurrentThread`
(`debug-session.tsx:345-349`): keep the current thread's id unless the stop
details carry a focus-taking (truthy, non-focus-preserving) thread id. -/
def chooseFocusThread (stoppedDetails : Option StoppedDetails)
    (currentId : Option Nat) : Option Nat :=
  match stoppedDetails with
  | some d =>
      if !d.preserveFocusHint && truthyThreadId d.threadId then d.threadId
      else currentId
  | none => currentId

/-- The pointer re-resolution of `DebugSession.updateCurrentThread`
(`debug-session.tsx:350-351`): the chosen id's thread if present, else the
first thread of the map, else nothing. -/
def pickCurrentThread (threads : List (Nat × DebugThread))
    (threadId : Option Nat) : Option Nat :=
  match threadId with
  | some i => if (alGet threads i).isSome then some i else (threads.head?).map (·.1)
  | none => (threads.head?).map (·.1)

/-- `DebugSession.updateCurrentThread` (`debug-session.tsx:344-352`). -/
def updateCurrentThread (s : Session) (stoppedDetails : Option StoppedDetails) : Session :=
  { s with currentThreadId :=
      pickCurrentThread s.threads (chooseFocusThread stoppedDetails s.currentThreadId) }

/-- `DebugSession.doUpdateThreads` (`debug-session.tsx:329-342`): rebuild the
thread map from the response, overwriting each thread's contents and attaching
the stop details only to the thread the details name, then update the current
thread. -/
def doUpdateThreads (s : Session) (raws : List RawThread)
    (stoppedDetails : Option StoppedDetails) : Session :=
  let threads := raws.foldl
    (fun m raw =>
      alSet m raw.id
        { raw := raw
          stoppedDetails :=
            match stoppedDetails with
            | some d => if d.threadId = some raw.id then some d else none
            | none => none })
    []
  updateCurrentThread { s with threads := threads } stoppedDetails

/-- `DebugSession.clearThreads` (`debug-session.tsx:303-308`): clear every
thread's stop state, then update the current thread. -/
def clearThreads (s : Session) : Session :=
  updateCurrentThread
    { s with threads := s.threads.map (fun q => (q.1, q.2.clear)) } none

/-- `DebugSession.clearThread` (`debug-session.tsx:309-315`): clear the named
thread's stop state if it exists, then update the current thread. -/
def clearThread (s : Session) (threadId : Option Nat) : Session :=
  let threads :=
    match threadId with
    | some i => s.threads.map (fun q => if q.1 = i then (q.1, q.2.clear) else q)
    | none => s.threads
  updateCurrentThread { s with threads := threads } none

/-- An adapter failure (error response or closed channel). -/
structure DebugError where
  message : String := ""
deriving DecidableEq, Repr

/-- The body of one `updateThreads` operation (`debug-session.tsx:319-328`)
given the adapter's answer to the `threads` request it sends: on success the
thread map is rebuilt via `doUpdateThreads`; a failure is caught
(`console.error`) and leaves the session untouched. -/
def updateThreadsOnce (s : Session) (resp : Except DebugError (List RawThread))
    (stoppedDetails : Option StoppedDetails) : Session :=
  match resp with
  | .ok raws => doUpdateThreads s raws stoppedDetails
  | .error _ => s

/-- The same operation seen as a promise: the `try`/`catch` body of
`updateThreads` resolves in both cases (`.error` would be a rejection, which
the `catch` prevents). -/
def updateThreadsTry (s : Session) (resp : Except DebugError (List RawThread))
    (stoppedDetails : Option StoppedDetails) : Except DebugError Session :=
  match resp with
  | .ok raws => .ok (doUpdateThreads s raws stoppedDetails)
  | .error _ => .ok s

/-- One queued `updateThreads` operation: the stop details it was called
with. -/
structure PendingOp where
  stoppedDetails : Option StoppedDetails
deriving DecidableEq, Repr

/-- `this.pendingThreads = this.pendingThreads.then(...)`
(`debug-session.tsx:318-320`): a new `updateThreads` call is chained behind
every operation already in flight. -/
def enqueueUpdateThreads (pending : List PendingOp)
    (stoppedDetails : Option StoppedDetails) : List PendingOp :=
  pending ++ [⟨stoppedDetails⟩]

/-- Draining the pending-operation chain: the queued operations run strictly in
order, each seeing the session state the previous one produced, each consuming
its own adapter answer. -/
def runPendingThreads (s : Session)
    (ops : List (PendingOp × Except DebugError (List RawThread))) : Session :=
  ops.foldl (fun s p => updateThreadsOnce s p.2 p.1.stoppedDetails) s

/-! ## Session events -/

/-- The `stopped`/`continued`/`thread` events the session interprets, each
bundled with the adapter's answer to the `threads` request the handler sends
(when it sends one). A `thread` event with reason `started` triggers a
(debounced) thread refresh; with reason `exited` it clears the named thread
locally. -/
inductive SessionEvent where
  | stopped (details : StoppedDetails) (threadsResp : Except DebugError (List RawThread))
  | continued (allThreadsContinued : Option Bool) (threadId : Option Nat)
  | threadStarted (threadsResp : Except DebugError (List RawThread))
  | threadExited (threadId : Option Nat)
deriving DecidableEq, Repr

/-- The event handlers registered in the constructor
(`debug-session.tsx:84-101`): `continued` clears all threads unless
`allThreadsContinued` is explicitly `false`, `stopped` refreshes the thread
list with the stop details attached, `thread started` refreshes the thread
list, `thread exited` clears the one thread. -/
def processEvent (s : Session) (e : SessionEvent) : Session :=
  match e with
  | .stopped details resp => updateThreadsOnce s resp (some details)
  | .continued allThreadsContinued threadId =>
      if allThreadsContinued != some false then clearThreads s
      else clearThread s threadId
  | .threadStarted resp => updateThreadsOnce s resp none
  | .threadExited threadId => clearThread s threadId

/-- The internal invariant of the current-thread pointer: it refers to a thread
of the map, or to nothing only when the map is empty (`updateCurrentThread`
re-establishes this after every mutation). -/
def sessionInv (s : Session) : Bool :=
  match s.currentThreadId with
  | none => s.threads.isEmpty
  | some i => (alGet s.threads i).isSome

/-! ## Requests and the lifecycle -/

/-- The adapter requests the embedded operations send. -/
inductive Request where
  | initializeReq
  | launch
  | attach
  | setBreakpoints (uri : String) (sourceModified : Bool)
      (breakpoints : List SourceBreakpoint)
  | configurationDone
  | threads
deriving DecidableEq, Repr

/-- Modelled from the spec: `DebugConfiguration` (`common/debug-configuration`,
not in the excerpt): type, request kind ("launch"/"attach"), name, and the
manager-assigned markers `__resovled` (source spelling) and
`__configurationId`. -/
structure DebugConfiguration where
  type : String := ""
  request : String := "launch"
  name : String := ""
  __resovled : Bool := false
  __configurationId : Option Nat := none
deriving DecidableEq, Repr

/-- The outcome of `start`/`launchOrAttach`: the requests sent, the events the
session fired on its own connection, and the resolution of the returned
promise. -/
structure StartResult where
  requests : List Request
  firedEvents : List String
  result : Except DebugError Unit
deriving DecidableEq, Repr

/-- `DebugSession.launchOrAttach` (`debug-session.tsx:240-258`): send `attach`
or `launch` according to the configuration's request kind; on failure fire a
local `exited` event on the session's own connection, show an error message,
and re-throw the original reason. -/
def launchOrAttach (cfg : DebugConfiguration) (resp : Except DebugError Unit) :
    StartResult :=
  let req := if cfg.request = "attach" then Request.attach else Request.launch
  match resp with
  | .ok _ => ⟨[req], [], .ok ()⟩
  | .error reason => ⟨[req], ["exited"], .error reason⟩

/-- `DebugSession.start` (`debug-session.tsx:221-224`): `initialize`, then
`launchOrAttach`; each failure propagates to the caller. -/
def start (cfg : DebugConfiguration) (initResp : Except DebugError Capabilities)
    (launchResp : Except DebugError Unit) : StartResult :=
  match initResp with
  | .error reason => ⟨[Request.initializeReq], [], .error reason⟩
  | .ok _ =>
      let r := launchOrAttach cfg launchResp
      ⟨Request.initializeReq :: r.requests, r.firedEvents, r.result⟩

/-- Whether a request is the `launch` or `attach` request. -/
def Request.isLaunchOrAttach : Request → Bool
  | .launch => true
  | .attach => true
  | _ => false

/-- Applying a `setBreakpoints` response (`debug-session.tsx:408`):
`response.body.breakpoints.map((raw, index) => enabled[index].update({ raw }))`
— walk the gathered breakpoints; each enabled one consumes the next response
item as its verification result, disabled ones are untouched. -/
def applyBreakpointResponse :
    List DebugBreakpoint → List RawBreakpoint → List DebugBreakpoint
  | [], _ => []
  | b :: rest, resp =>
      if b.enabled then
        match resp with
        | [] => b :: applyBreakpointResponse rest []
        | r :: rs => { b with raw := some r } :: applyBreakpointResponse rest rs
      else b :: applyBreakpointResponse rest resp

/-- The body of the `updateBreakpoints` loop for one affected resource
(`debug-session.tsx:397-412`): gather all declarations from the store, send
the enabled ones via `setBreakpoints`, apply the adapter's verification
results in request order, store the deduplicated full set as the resource's
breakpoint state. Returns the new session state and the request sent. -/
def updateBreakpointsUri (s : Session) (store : BreakpointStore) (uri : String)
    (sourceModified : Bool) (resp : List RawBreakpoint) : Session × Request :=
  let all := (findMarkersFor store uri).map DebugBreakpoint.mk0
  let enabled := all.filter (·.enabled)
  let req := Request.setBreakpoints uri sourceModified (enabled.map (·.origin))
  let all' := applyBreakpointResponse all resp
  let distinct := dedupBreakpoints all'
  ({ s with breakpoints := alSet s.breakpoints uri distinct }, req)

/-- The collection of breakpoints sent to the adapter for one resource (the
`breakpoints` argument of the `setBreakpoints` request built at
`debug-session.tsx:399-407`). -/
def sentBreakpoints (markers : List SourceBreakpoint) : List SourceBreakpoint :=
  (((markers.map DebugBreakpoint.mk0).filter (·.enabled)).map (·.origin))

/-- `DebugSession.getAffectedUris` (`debug-session.tsx:429-437`): the given uri
or, when none is given, every resource known to the store. -/
def getAffectedUris (store : BreakpointStore) (uri : Option String) : List String :=
  match uri with
  | some u => [u]
  | none => getUris store

/-- `DebugSession.updateBreakpoints` (`debug-session.tsx:392-413`): resync each
affected resource in order. `resps` is the oracle of adapter answers per
resource. -/
def updateBreakpoints (s : Session) (store : BreakpointStore) (uri : Option String)
    (sourceModified : Bool) (resps : String → List RawBreakpoint) :
    Session × List Request :=
  (getAffectedUris store uri).foldl
    (fun acc u =>
      ((updateBreakpointsUri acc.1 store u sourceModified (resps u)).1,
       acc.2 ++ [(updateBreakpointsUri acc.1 store u sourceModified (resps u)).2]))
    (s, [])

/-- `DebugSession.configure` (`debug-session.tsx:260-267`), run on the
adapter's `initialized` event: push all breakpoints for every resource of the
store (`sourceModified = false`), send `configurationDone` when the stored
capability supports it, mark `initialized = true`, then refresh the thread
list once. -/
def configure (s : Session) (store : BreakpointStore)
    (resps : String → List RawBreakpoint)
    (threadsResp : Except DebugError (List RawThread)) : Session × List Request :=
  let ub := updateBreakpoints s store none false resps
  let reqs2 : List Request :=
    if supportsConfigurationDone ub.1.capabilities then [Request.configurationDone] else []
  let s2 := { ub.1 with initialized := true }
  let s3 := updateThreadsOnce s2 threadsResp none
  (s3, ub.2 ++ reqs2 ++ [Request.threads])

/-! ## Session manager -/

/-- The `DebugSessionManager` state: the session map `_sessions`, the current
session pointer, and the per-name disambiguator map `configurationIds`. -/
structure ManagerState where
  sessions : List (String × Session) := []
  currentSessionId : Option String := none
  configurationIds : List (String × Nat) := []
deriving DecidableEq, Repr

/-- `get sessions()`: the active (non-Inactive) sessions. -/
def activeSessions (st : ManagerState) : List (String × Session) :=
  st.sessions.filter (fun q => DebugState.Inactive.toNat < q.2.state.toNat)

/-- `get currentSession()`. -/
def currentSession (st : ManagerState) : Option Session :=
  st.currentSessionId.bind (alGet st.sessions)

/-- The disambiguator the manager would assign next for a configuration name:
`this.configurationIds.has(name) ? this.configurationIds.get(name)! + 1 : 0`. -/
def nextConfigurationId (st : ManagerState) (name : String) : Nat :=
  match alGet st.configurationIds name with
  | some n => n + 1
  | none => 0

/-- `DebugSessionManager.resolveConfiguration`
(electron-file-dialog-service.ts, manager part, lines 224-234): a
configuration already marked resolved is returned unchanged; otherwise resolve
it (the external `debugService.resolveDebugConfiguration` and
`variableResolver.resolve` collaborators are modelled as the identity), mark
it resolved, and assign the next disambiguator for its name. -/
def resolveConfiguration (st : ManagerState) (cfg : DebugConfiguration) :
    DebugConfiguration × ManagerState :=
  if cfg.__resovled then (cfg, st)
  else
    ({ cfg with
        __resovled := true
        __configurationId := some (nextConfigurationId st cfg.name) },
     { st with
        configurationIds := alSet st.configurationIds cfg.name (nextConfigurationId st cfg.name) })

/-- `n` successive `start`s of the same configuration, each resolving a fresh
copy: the list of assigned disambiguators and the final manager state. -/
def resolveSeq (st : ManagerState) (cfg : DebugConfiguration) :
    Nat → List (Option Nat) × ManagerState
  | 0 => ([], st)
  | n + 1 =>
      ((resolveConfiguration st cfg).1.__configurationId ::
        (resolveSeq (resolveConfiguration st cfg).2 cfg n).1,
       (resolveSeq (resolveConfiguration st cfg).2 cfg n).2)

/-- `DebugSessionManager.remove` (manager part, lines 278-284): delete the
session; if it was current, promote the first remaining active session (or
none). -/
def removeSession (st : ManagerState) (sessionId : String) : ManagerState :=
  let st' := { st with sessions := st.sessions.filter (fun q => ¬q.1 = sessionId) }
  if st'.currentSessionId = some sessionId then
    { st' with currentSessionId := ((activeSessions st').head?).map (·.1) }
  else st'

/-- `DebugSessionManager.doDestroy` (manager part, lines 380-386): stop the
remote adapter (external), dispose the session (session-local), remove it from
the set, fire the destroyed event. -/
def doDestroy (st : ManagerState) (sessionId : String) : ManagerState :=
  removeSession st sessionId

/-- `DebugSession.getBreakpoints` (`debug-session.tsx:375-384`): the stored
breakpoints of one resource, or all of them flattened when no uri is given. -/
def Session.getBreakpoints (s : Session) (uri : Option String) : List DebugBreakpoint :=
  match uri with
  | some u => (alGet s.breakpoints u).getD []
  | none => s.breakpoints.foldl (fun acc q => acc ++ q.2) []

/-- The session a `DebugSessionManager.getBreakpoints` call operates on: the
explicitly given one, else the current session. -/
def effectiveSession (st : ManagerState) (sessionArg : Option Session) : Option Session :=
  match sessionArg with
  | some s => some s
  | none => currentSession st

/-- `DebugSessionManager.getBreakpoints` (manager part, lines 388-397): when
the given-or-current session exists and its state is past Initializing, return
all of that session's breakpoints (the uri argument is not passed on);
otherwise return the store's markers for the uri filter as fresh logical
breakpoints. -/
def managerGetBreakpoints (st : ManagerState) (store : BreakpointStore)
    (uriArg : Option String) (sessionArg : Option Session) : List DebugBreakpoint :=
  match effectiveSession st sessionArg with
  | some s =>
      if DebugState.Initializing.toNat < s.state.toNat then s.getBreakpoints none
      else (findMarkers store uriArg).map DebugBreakpoint.mk0
  | none => (findMarkers store uriArg).map DebugBreakpoint.mk0

/-! ## Concrete instances used by counterexamples and witnesses -/

/-- A breakpoint requested on line 4 that the adapter relocated to line 5 (its
adapter-reported line does not match its requested line). -/
def bpShifted4to5 : DebugBreakpoint :=
  { origins := [{ line := 4 }], raw := some { line := 5 } }

/-- A breakpoint requested on line 6 that the adapter relocated to line 5,
reported unverified (its adapter-reported line does not match its requested
line either). -/
def bpShifted6to5 : DebugBreakpoint :=
  { origins := [{ line := 6 }], raw := some { line := 5, verified := false } }

/-- A breakpoint requested on line 5 that the adapter acknowledged on line 5
(its adapter-reported line matches its requested line). -/
def bpKept5 : DebugBreakpoint :=
  { origins := [{ line := 5 }], raw := some { line := 5 } }

/-- A session that has completed `configure` and has no threads yet. -/
def initializedSession : Session :=
  { disposed := false, initialized := true }

/-- A store with one enabled declaration on line 3 of one resource. -/
def oneMarkerStore : BreakpointStore :=
  { markers := [("file:///a.ts", [{ line := 3 }])] }

/-- A fresh (unresolved) configuration named "X". -/
def freshConfigX : DebugConfiguration :=
  { name := "X" }

/-- The session reached from a fresh initialized session by a first thread
refresh listing threads 3 and 7, followed by a `stopped` event for thread 7
whose `preserveFocusHint` flag asks the client not to move focus. -/
def stoppedNotFocusedSession : Session :=
  processEvent
    (processEvent initializedSession
      (.threadStarted (.ok [{ id := 3 }, { id := 7 }])))
    (.stopped { threadId := some 7, preserveFocusHint := true }
      (.ok [{ id := 3 }, { id := 7 }]))

/-! ## Lemmas about the map embedding -/

theorem alGet_eq_none_iff {α β : Type} [DecidableEq α] (m : List (α × β)) (k : α) :
    alGet m k = none ↔ k ∉ alKeys m := by
  induction m with
  | nil => simp [alGet, alKeys]
  | cons p m ih =>
    by_cases h : p.1 = k
    · simp [alGet, alKeys, List.find?, h]
    · simpa [alGet, alKeys, List.find?, h, Ne.symm h] using ih

theorem alGet_isSome_iff {α β : Type} [DecidableEq α] (m : List (α × β)) (k : α) :
    (alGet m k).isSome ↔ k ∈ alKeys m := by
  rcases h : alGet m k with _ | v
  · simpa [h] using (alGet_eq_none_iff m k).mp h
  · simp only [h, Option.isSome_some, true_iff]
    by_contra hk
    rw [(alGet_eq_none_iff m k).mpr hk] at h
    cases h

theorem alSet_of_not_mem {α β : Type} [DecidableEq α] (m : List (α × β)) (k : α) (v : β)
    (h : k ∉ alKeys m) : alSet m k v = m ++ [(k, v)] := by
  induction m with
  | nil => rfl
  | cons p m ih =>
    have hpk : p.1 ≠ k := fun hk => h (by simp [alKeys, hk])
    have hm : k ∉ alKeys m := fun hk => h (by simp [alKeys] at hk ⊢; tauto)
    simp [alSet, hpk, ih hm]

theorem alKeys_alSet_of_mem {α β : Type} [DecidableEq α] (m : List (α × β)) (k : α) (v : β)
    (h : k ∈ alKeys m) : alKeys (alSet m k v) = alKeys m := by
  induction m with
  | nil => simp [alKeys] at h
  | cons p m ih =>
    by_cases hpk : p.1 = k
    · simp [alSet, alKeys, hpk]
    · have hm : k ∈ alKeys m := by
        simp only [alKeys, List.map_cons, List.mem_cons] at h
        rcases h with h | h
        · exact absurd h.symm hpk
        · exact h
      simp only [alSet, hpk, if_false, alKeys, List.map_cons]
      rw [show List.map (·.1) (alSet m k v) = List.map (·.1) m from ih hm]

theorem alKeys_alSet_of_not_mem {α β : Type} [DecidableEq α] (m : List (α × β)) (k : α)
    (v : β) (h : k ∉ alKeys m) : alKeys (alSet m k v) = alKeys m ++ [k] := by
  simp [alSet_of_not_mem m k v h, alKeys]

theorem alGet_alSet_self {α β : Type} [DecidableEq α] (m : List (α × β)) (k : α) (v : β) :
    alGet (alSet m k v) k = some v := by
  induction m with
  | nil => simp [alSet, alGet, List.find?]
  | cons p m ih =>
    by_cases hpk : p.1 = k
    · simp [alSet, alGet, List.find?, hpk]
    · simpa [alSet, alGet, List.find?, hpk] using ih

theorem alGet_alSet_ne {α β : Type} [DecidableEq α] (m : List (α × β)) (k k' : α) (v : β)
    (h : k' ≠ k) : alGet (alSet m k v) k' = alGet m k' := by
  induction m with
  | nil => simp [alSet, alGet, List.find?, h, Ne.symm h]
  | cons p m ih =>
    by_cases hpk : p.1 = k
    · have : ¬p.1 = k' := fun hc => h (by rw [← hc, hpk])
      simp [alSet, alGet, List.find?, hpk, this, Ne.symm h]
    · by_cases hpk' : p.1 = k'
      · simp [alSet, alGet, List.find?, hpk, hpk', h]
      · simpa [alSet, alGet, List.find?, hpk, hpk'] using ih

/-- Membership of a pair in `alSet m k v`: the new pair, or a pair of `m`. -/
theorem mem_alSet {α β : Type} [DecidableEq α] (m : List (α × β)) (k : α) (v : β)
    (q : α × β) (hq : q ∈ alSet m k v) : q = (k, v) ∨ q ∈ m := by
  induction m with
  | nil => simpa [alSet] using hq
  | cons p m ih =>
    by_cases hpk : p.1 = k
    · simp only [alSet, hpk, if_true, List.mem_cons] at hq
      rcases hq with h | h
      · exact Or.inl h
      · exact Or.inr (List.mem_cons_of_mem _ h)
    · simp only [alSet, hpk, if_false, List.mem_cons] at hq
      rcases hq with h | h
      · exact Or.inr (h ▸ List.mem_cons_self _ _)
      · rcases ih h with h' | h'
        · exact Or.inl h'
        · exact Or.inr (List.mem_cons_of_mem _ h')

/-- A pair of `m` whose key is not the overwritten one survives `alSet`. -/
theorem mem_alSet_of_mem {α β : Type} [DecidableEq α] (m : List (α × β)) (k : α) (v : β)
    (q : α × β) (hq : q ∈ m) (hne : q.1 ≠ k) : q ∈ alSet m k v := by
  induction m with
  | nil => cases hq
  | cons p m ih =>
    by_cases hpk : p.1 = k
    · rcases List.mem_cons.mp hq with rfl | h
      · exact absurd hpk hne
      · simp [alSet, hpk, List.mem_cons_of_mem _ h]
    · rcases List.mem_cons.mp hq with rfl | h
      · simp [alSet, hpk]
      · simp [alSet, hpk, List.mem_cons_of_mem _ (ih h)]

/-- With distinct keys, a stored pair is what `alGet` finds. -/
theorem alGet_of_mem_nodup {α β : Type} [DecidableEq α] (m : List (α × β)) (k : α) (v : β)
    (hnd : (alKeys m).Nodup) (hq : (k, v) ∈ m) : alGet m k = some v := by
  induction m with
  | nil => cases hq
  | cons p m ih =>
    rcases List.mem_cons.mp hq with h | h
    · simp [alGet, List.find?, ← h]
    · have hnd2 : p.1 ∉ alKeys m ∧ (alKeys m).Nodup := by
        simpa [alKeys] using hnd
      have hpk : p.1 ≠ k := by
        intro hc
        apply hnd2.1
        rw [hc]
        simpa [alKeys] using List.mem_map_of_mem (·.1) h
      simpa [alGet, List.find?, hpk] using ih hnd2.2 h

/-- `alGet` only finds stored pairs. -/
theorem mem_of_alGet_eq_some {α β : Type} [DecidableEq α] (m : List (α × β)) (k : α) (v : β)
    (h : alGet m k = some v) : (k, v) ∈ m := by
  induction m with
  | nil => simp [alGet] at h
  | cons p m ih =>
    by_cases hpk : p.1 = k
    · have hv : p.2 = v := by simpa [alGet, List.find?, hpk] using h
      have hp : p = (k, v) := by
        rcases p with ⟨pk, pv⟩
        simp_all
      exact hp ▸ List.mem_cons_self _ _
    · have h' : alGet m k = some v := by simpa [alGet, List.find?, hpk] using h
      exact List.mem_cons_of_mem _ (ih h')

/-! ## Lemmas about dedupBreakpoints -/

theorem LinesMapWF_nil : LinesMapWF [] :=
  ⟨fun q hq => absurd hq (List.not_mem_nil q), by simp [alKeys]⟩

/-- Appending to a nonempty origin list does not change a breakpoint's line. -/
theorem line_origins_append (p : DebugBreakpoint) (l : List SourceBreakpoint)
    (h : p.origins ≠ []) :
    ({ p with origins := p.origins ++ l } : DebugBreakpoint).line = p.line := by
  rcases p with ⟨origins, _ | r⟩
  · cases origins with
    | nil => exact absurd rfl h
    | cons o os => rfl
  · rfl

/-- A breakpoint whose raw result matches keeps its line under any change of
origins. -/
theorem line_origins_any_of_raw (b : DebugBreakpoint) (r : RawBreakpoint)
    (l : List SourceBreakpoint) (h : b.raw = some r) :
    ({ b with origins := l } : DebugBreakpoint).line = b.line := by
  rcases b with ⟨origins, raw⟩
  cases h
  rfl

theorem raw_isSome_of_rawMatches (b : DebugBreakpoint)
    (h : b.rawMatchesOrigin = true) : ∃ r, b.raw = some r := by
  rcases b with ⟨origins, _ | r⟩
  · simp [DebugBreakpoint.rawMatchesOrigin] at h
  · exact ⟨r, rfl⟩

theorem dedupStep_eq_none (m : List (Nat × DebugBreakpoint)) (b : DebugBreakpoint)
    (h : alGet m b.line = none) : dedupStep m b = alSet m b.line b := by
  unfold dedupStep
  rw [h]

theorem dedupStep_eq_some (m : List (Nat × DebugBreakpoint)) (b p : DebugBreakpoint)
    (h : alGet m b.line = some p) :
    dedupStep m b =
      if b.rawMatchesOrigin then
        alSet m b.line { b with origins := b.origins ++ p.origins }
      else alSet m b.line { p with origins := p.origins ++ b.origins } := by
  unfold dedupStep
  rw [h]

theorem WF_alSet (m : List (Nat × DebugBreakpoint)) (k : Nat) (v : DebugBreakpoint)
    (hm : LinesMapWF m) (hk : k ∈ alKeys m) (hv : v.line = k ∧ v.origins ≠ []) :
    LinesMapWF (alSet m k v) := by
  constructor
  · intro q hq
    rcases mem_alSet m k v q hq with rfl | h
    · exact hv
    · exact hm.1 q h
  · rw [alKeys_alSet_of_mem m k v hk]
    exact hm.2

theorem dedupStep_WF (m : List (Nat × DebugBreakpoint)) (b : DebugBreakpoint)
    (hm : LinesMapWF m) (hb : b.origins ≠ []) : LinesMapWF (dedupStep m b) := by
  rcases hget : alGet m b.line with _ | p
  · have hnot : b.line ∉ alKeys m := (alGet_eq_none_iff m b.line).mp hget
    rw [dedupStep_eq_none m b hget, alSet_of_not_mem m b.line b hnot]
    constructor
    · intro q hq
      rcases List.mem_append.mp hq with h | h
      · exact hm.1 q h
      · simp only [List.mem_singleton] at h
        subst h
        exact ⟨rfl, hb⟩
    · rw [show alKeys (m ++ [(b.line, b)]) = alKeys m ++ [b.line] by simp [alKeys]]
      refine List.Nodup.append hm.2 (List.nodup_singleton _) ?_
      intro x hx hx'
      simp only [List.mem_singleton] at hx'
      exact hnot (hx' ▸ hx)
  · have hpmem : (b.line, p) ∈ m := mem_of_alGet_eq_some m _ _ hget
    have hp := hm.1 _ hpmem
    have hkey : b.line ∈ alKeys m := by
      simpa [alKeys] using List.mem_map_of_mem (·.1) hpmem
    rw [dedupStep_eq_some m b p hget]
    by_cases hsw : b.rawMatchesOrigin
    · rw [if_pos hsw]
      obtain ⟨r, hr⟩ := raw_isSome_of_rawMatches b hsw
      refine WF_alSet m b.line _ hm hkey ⟨?_, ?_⟩
      · exact line_origins_any_of_raw b r _ hr
      · intro hc
        exact hb (List.append_eq_nil.mp hc).1
    · rw [if_neg hsw]
      refine WF_alSet m b.line _ hm hkey ⟨?_, ?_⟩
      · rw [line_origins_append p b.origins hp.2]
        exact hp.1
      · intro hc
        exact hp.2 (List.append_eq_nil.mp hc).1

theorem alKeys_dedupStep (m : List (Nat × DebugBreakpoint)) (b : DebugBreakpoint)
    (k : Nat) : k ∈ alKeys (dedupStep m b) ↔ k ∈ alKeys m ∨ k = b.line := by
  rcases hget : alGet m b.line with _ | p
  · have hnot := (alGet_eq_none_iff m b.line).mp hget
    rw [dedupStep_eq_none m b hget, alKeys_alSet_of_not_mem m _ _ hnot]
    simp
  · have hkey : b.line ∈ alKeys m := by
      simpa [alKeys] using List.mem_map_of_mem (·.1) (mem_of_alGet_eq_some m _ _ hget)
    rw [dedupStep_eq_some m b p hget]
    by_cases hsw : b.rawMatchesOrigin
    · rw [if_pos hsw, alKeys_alSet_of_mem m _ _ hkey]
      exact ⟨Or.inl, fun h => h.elim id (fun hk => hk.symm ▸ hkey)⟩
    · rw [if_neg hsw, alKeys_alSet_of_mem m _ _ hkey]
      exact ⟨Or.inl, fun h => h.elim id (fun hk => hk.symm ▸ hkey)⟩

theorem dedupStep_mono (m : List (Nat × DebugBreakpoint)) (b : DebugBreakpoint)
    (hm : LinesMapWF m) (k : Nat) (v : DebugBreakpoint) (hkv : (k, v) ∈ m) :
    ∃ v', (k, v') ∈ dedupStep m b ∧ v.origins ⊆ v'.origins := by
  rcases hget : alGet m b.line with _ | p
  · have hnot := (alGet_eq_none_iff m b.line).mp hget
    rw [dedupStep_eq_none m b hget, alSet_of_not_mem m _ _ hnot]
    exact ⟨v, List.mem_append_left _ hkv, List.Subset.refl _⟩
  · rw [dedupStep_eq_some m b p hget]
    by_cases hk : k = b.line
    · have hv : v = p := by
        have h := alGet_of_mem_nodup m k v hm.2 hkv
        rw [hk, hget] at h
        exact (Option.some.inj h).symm
      by_cases hsw : b.rawMatchesOrigin
      · rw [if_pos hsw]
        refine ⟨{ b with origins := b.origins ++ p.origins }, ?_, ?_⟩
        · rw [hk]
          exact mem_of_alGet_eq_some _ _ _ (alGet_alSet_self m b.line _)
        · intro o ho
          rw [hv] at ho
          exact List.mem_append_right _ ho
      · rw [if_neg hsw]
        refine ⟨{ p with origins := p.origins ++ b.origins }, ?_, ?_⟩
        · rw [hk]
          exact mem_of_alGet_eq_some _ _ _ (alGet_alSet_self m b.line _)
        · intro o ho
          rw [hv] at ho
          exact List.mem_append_left _ ho
    · refine ⟨v, ?_, List.Subset.refl _⟩
      by_cases hsw : b.rawMatchesOrigin
      · rw [if_pos hsw]
        exact mem_alSet_of_mem m _ _ _ hkv hk
      · rw [if_neg hsw]
        exact mem_alSet_of_mem m _ _ _ hkv hk

theorem dedupStep_self (m : List (Nat × DebugBreakpoint)) (b : DebugBreakpoint)
    (hm : LinesMapWF m) :
    ∃ v, (b.line, v) ∈ dedupStep m b ∧ b.origins ⊆ v.origins := by
  rcases hget : alGet m b.line with _ | p
  · have hnot := (alGet_eq_none_iff m b.line).mp hget
    rw [dedupStep_eq_none m b hget, alSet_of_not_mem m _ _ hnot]
    exact ⟨b, List.mem_append_right _ (by simp), List.Subset.refl _⟩
  · rw [dedupStep_eq_some m b p hget]
    by_cases hsw : b.rawMatchesOrigin
    · rw [if_pos hsw]
      exact ⟨_, mem_of_alGet_eq_some _ _ _ (alGet_alSet_self m _ _),
        fun o ho => List.mem_append_left _ ho⟩
    · rw [if_neg hsw]
      exact ⟨_, mem_of_alGet_eq_some _ _ _ (alGet_alSet_self m _ _),
        fun o ho => List.mem_append_right _ ho⟩

theorem dedupFold_WF (all : List DebugBreakpoint) (m : List (Nat × DebugBreakpoint))
    (hm : LinesMapWF m) (hall : ∀ b ∈ all, b.origins ≠ []) :
    LinesMapWF (all.foldl dedupStep m) := by
  induction all generalizing m with
  | nil => exact hm
  | cons b rest ih =>
    exact ih _ (dedupStep_WF m b hm (hall b (List.mem_cons_self _ _)))
      (fun b' hb' => hall b' (List.mem_cons_of_mem _ hb'))

theorem dedupFold_keys (all : List DebugBreakpoint) (m : List (Nat × DebugBreakpoint))
    (k : Nat) :
    k ∈ alKeys (all.foldl dedupStep m) ↔
      k ∈ alKeys m ∨ k ∈ all.map DebugBreakpoint.line := by
  induction all generalizing m with
  | nil => simp
  | cons b rest ih =>
    rw [List.foldl_cons, ih, alKeys_dedupStep]
    simp only [List.map_cons, List.mem_cons]
    tauto

theorem dedupFold_mono (all : List DebugBreakpoint) (m : List (Nat × DebugBreakpoint))
    (hm : LinesMapWF m) (hall : ∀ b ∈ all, b.origins ≠ []) (k : Nat)
    (v : DebugBreakpoint) (hkv : (k, v) ∈ m) :
    ∃ v', (k, v') ∈ all.foldl dedupStep m ∧ v.origins ⊆ v'.origins := by
  induction all generalizing m v with
  | nil => exact ⟨v, hkv, List.Subset.refl _⟩
  | cons b rest ih =>
    obtain ⟨v1, hv1, hsub1⟩ := dedupStep_mono m b hm k v hkv
    obtain ⟨v2, hv2, hsub2⟩ :=
      ih (dedupStep m b) (dedupStep_WF m b hm (hall b (List.mem_cons_self _ _)))
        (fun b' hb' => hall b' (List.mem_cons_of_mem _ hb')) v1 hv1
    exact ⟨v2, hv2, hsub1.trans hsub2⟩

theorem dedupFold_covers (all : List DebugBreakpoint) (m : List (Nat × DebugBreakpoint))
    (hm : LinesMapWF m) (hall : ∀ b ∈ all, b.origins ≠ []) (b : DebugBreakpoint)
    (hb : b ∈ all) :
    ∃ v, (b.line, v) ∈ all.foldl dedupStep m ∧ b.origins ⊆ v.origins := by
  induction all generalizing m with
  | nil => cases hb
  | cons b0 rest ih =>
    have hWF' := dedupStep_WF m b0 hm (hall b0 (List.mem_cons_self _ _))
    have hall' := fun b' hb' => hall b' (List.mem_cons_of_mem _ hb')
    rcases List.mem_cons.mp hb with rfl | hb'
    · obtain ⟨v1, hv1, hsub1⟩ := dedupStep_self m b hm
      obtain ⟨v2, hv2, hsub2⟩ := dedupFold_mono rest _ hWF' hall' _ v1 hv1
      exact ⟨v2, hv2, hsub1.trans hsub2⟩
    · exact ih _ hWF' hall' hb'

theorem dedup_lines_eq_keys (all : List DebugBreakpoint)
    (hall : ∀ b ∈ all, b.origins ≠ []) :
    (dedupBreakpoints all).map DebugBreakpoint.line =
      alKeys (all.foldl dedupStep []) := by
  have hWF := dedupFold_WF all [] LinesMapWF_nil hall
  unfold dedupBreakpoints
  rw [List.map_map]
  apply List.map_congr_left
  intro q hq
  exact (hWF.1 q hq).1

/-- **C3**: for every input collection of logical breakpoints for one resource
containing two or more entries on an identical line, the deduplicated output
contains exactly one entry per distinct line — its lines are pairwise distinct
and cover exactly the input lines — and the surviving entry for a line carries
every origin of every breakpoint that collapsed into that line. -/
theorem dedup_exactly_one_per_line (all : List DebugBreakpoint)
    (hne : ∀ b ∈ all, b.origins ≠ [])
    (hdup : ¬(all.map DebugBreakpoint.line).Nodup) :
    ((dedupBreakpoints all).map DebugBreakpoint.line).Nodup ∧
    (∀ l : Nat, l ∈ (dedupBreakpoints all).map DebugBreakpoint.line ↔
      l ∈ all.map DebugBreakpoint.line) ∧
    (∀ b ∈ all, ∃ e ∈ dedupBreakpoints all, e.line = b.line ∧ b.origins ⊆ e.origins) := by
  have hWF := dedupFold_WF all [] LinesMapWF_nil hne
  refine ⟨?_, ?_, ?_⟩
  · rw [dedup_lines_eq_keys all hne]
    exact hWF.2
  · intro l
    rw [dedup_lines_eq_keys all hne, dedupFold_keys]
    simp [alKeys]
  · intro b hb
    obtain ⟨v, hv, hsub⟩ := dedupFold_covers all [] LinesMapWF_nil hne b hb
    exact ⟨v, List.mem_map_of_mem (·.2) hv, (hWF.1 _ hv).1, hsub⟩

/-- Witness for `dedup_exactly_one_per_line` at a concrete collision: two
breakpoints on line 5 and one on line 7. -/
theorem dedup_exactly_one_per_line_witness :
    ((∀ b ∈ [DebugBreakpoint.mk0 { line := 5 }, DebugBreakpoint.mk0 { line := 5 },
        DebugBreakpoint.mk0 { line := 7 }], b.origins ≠ []) ∧
      ¬(([DebugBreakpoint.mk0 { line := 5 }, DebugBreakpoint.mk0 { line := 5 },
        DebugBreakpoint.mk0 { line := 7 }].map DebugBreakpoint.line).Nodup)) ∧
    (((dedupBreakpoints [DebugBreakpoint.mk0 { line := 5 },
        DebugBreakpoint.mk0 { line := 5 },
        DebugBreakpoint.mk0 { line := 7 }]).map DebugBreakpoint.line).Nodup ∧
      (∀ l : Nat, l ∈ (dedupBreakpoints [DebugBreakpoint.mk0 { line := 5 },
          DebugBreakpoint.mk0 { line := 5 },
          DebugBreakpoint.mk0 { line := 7 }]).map DebugBreakpoint.line ↔
        l ∈ [DebugBreakpoint.mk0 { line := 5 }, DebugBreakpoint.mk0 { line := 5 },
          DebugBreakpoint.mk0 { line := 7 }].map DebugBreakpoint.line) ∧
      (∀ b ∈ [DebugBreakpoint.mk0 { line := 5 }, DebugBreakpoint.mk0 { line := 5 },
          DebugBreakpoint.mk0 { line := 7 }], ∃ e ∈ dedupBreakpoints
            [DebugBreakpoint.mk0 { line := 5 }, DebugBreakpoint.mk0 { line := 5 },
             DebugBreakpoint.mk0 { line := 7 }],
          e.line = b.line ∧ b.origins ⊆ e.origins)) :=
  ⟨⟨by decide, by decide⟩, dedup_exactly_one_per_line _ (by decide) (by decide)⟩

/-! ## C4: order (in)dependence of the dedup tie-break -/

/-- **C4 counterexample**: two breakpoints that the adapter relocated onto the
same line 5, neither of whose adapter-reported line matches its requested
line. The two iteration orders of the same input set produce different outputs
(the first-seen breakpoint stays primary), so `dedupBreakpoints` is not
deterministic regardless of iteration order. -/
theorem dedup_not_order_invariant :
    List.Perm [bpShifted4to5, bpShifted6to5] [bpShifted6to5, bpShifted4to5] ∧
    dedupBreakpoints [bpShifted4to5, bpShifted6to5] ≠
      dedupBreakpoints [bpShifted6to5, bpShifted4to5] := by
  constructor
  · decide
  · decide

/-- **C4 amended**: the tie-break is order-independent only when exactly one of
the two colliding breakpoints' adapter-reported line equals its requested
line; that breakpoint becomes the primary in both iteration orders, with the
other's origins appended. (When neither or both match, the outcome depends on
iteration order, as the counterexample shows.) -/
theorem dedup_two_order_invariant_of_unique_match (a b : DebugBreakpoint)
    (hline : a.line = b.line)
    (ha : a.rawMatchesOrigin = false) (hb : b.rawMatchesOrigin = true) :
    dedupBreakpoints [a, b] = [{ b with origins := b.origins ++ a.origins }] ∧
    dedupBreakpoints [b, a] = [{ b with origins := b.origins ++ a.origins }] := by
  have hstep1 : dedupStep [] a = [(a.line, a)] := by
    rw [dedupStep_eq_none [] a rfl]
    rfl
  have hstep1b : dedupStep [] b = [(b.line, b)] := by
    rw [dedupStep_eq_none [] b rfl]
    rfl
  have hget2 : alGet [(a.line, a)] b.line = some a := by
    rw [← hline]
    simp [alGet, List.find?]
  have hget2b : alGet [(b.line, b)] a.line = some b := by
    rw [hline]
    simp [alGet, List.find?]
  have hstep2 : dedupStep [(a.line, a)] b =
      [(b.line, { b with origins := b.origins ++ a.origins })] := by
    rw [dedupStep_eq_some _ b a hget2, if_pos hb]
    simp [alSet, hline]
  have hstep2b : dedupStep [(b.line, b)] a =
      [(a.line, { b with origins := b.origins ++ a.origins })] := by
    rw [dedupStep_eq_some _ a b hget2b, if_neg (by simp [ha])]
    simp [alSet, hline]
  constructor
  · unfold dedupBreakpoints
    rw [List.foldl_cons, List.foldl_cons, List.foldl_nil, hstep1, hstep2]
    rfl
  · unfold dedupBreakpoints
    rw [List.foldl_cons, List.foldl_cons, List.foldl_nil, hstep1b, hstep2b]
    rfl

/-- Witness for `dedup_two_order_invariant_of_unique_match`: the shifted
breakpoint 4→5 collides with the kept breakpoint 5→5; the kept one is primary
in both orders. -/
theorem dedup_two_order_invariant_witness :
    (bpShifted4to5.line = bpKept5.line ∧
      bpShifted4to5.rawMatchesOrigin = false ∧ bpKept5.rawMatchesOrigin = true) ∧
    (dedupBreakpoints [bpShifted4to5, bpKept5] =
      [{ bpKept5 with origins := bpKept5.origins ++ bpShifted4to5.origins }] ∧
    dedupBreakpoints [bpKept5, bpShifted4to5] =
      [{ bpKept5 with origins := bpKept5.origins ++ bpShifted4to5.origins }]) :=
  ⟨⟨by decide, by decide, by decide⟩,
    dedup_two_order_invariant_of_unique_match bpShifted4to5 bpKept5
      (by decide) (by decide) (by decide)⟩

/-! ## C2: the collection sent in setBreakpoints -/

/-- When all lines are fresh (no key of `m`, no duplicates), the dedup fold
just appends each breakpoint under its own line. -/
theorem dedupFold_of_nodup_lines (all : List DebugBreakpoint)
    (m : List (Nat × DebugBreakpoint))
    (h : (alKeys m ++ all.map DebugBreakpoint.line).Nodup) :
    all.foldl dedupStep m = m ++ all.map (fun b => (b.line, b)) := by
  induction all generalizing m with
  | nil => simp
  | cons b rest ih =>
    have hdisj := List.disjoint_of_nodup_append h
    have hbnot : b.line ∉ alKeys m := by
      intro hmem
      exact hdisj hmem (by simp)
    rw [List.foldl_cons, dedupStep_eq_none m b ((alGet_eq_none_iff m b.line).mpr hbnot),
      alSet_of_not_mem m _ _ hbnot, ih]
    · simp
    · rw [show alKeys (m ++ [(b.line, b)]) = alKeys m ++ [b.line] by simp [alKeys]]
      rw [List.append_assoc, List.singleton_append]
      simpa using h

/-- On line-distinct fresh breakpoints the dedup is the identity. -/
theorem dedup_eq_self_of_nodup_lines (all : List DebugBreakpoint)
    (h : (all.map DebugBreakpoint.line).Nodup) : dedupBreakpoints all = all := by
  unfold dedupBreakpoints
  rw [dedupFold_of_nodup_lines all [] (by simpa [alKeys] using h)]
  rw [List.nil_append, List.map_map]
  rw [show ((fun x : Nat × DebugBreakpoint => x.2) ∘
    fun b : DebugBreakpoint => (b.line, b)) = id from rfl, List.map_id]

/-- The collection sent is exactly the enabled store declarations, in order. -/
theorem sentBreakpoints_eq_filter (markers : List SourceBreakpoint) :
    sentBreakpoints markers = markers.filter (·.enabled) := by
  induction markers with
  | nil => rfl
  | cons o rest ih =>
    by_cases h : o.enabled
    · simpa [sentBreakpoints, DebugBreakpoint.mk0, DebugBreakpoint.enabled,
        DebugBreakpoint.origin, List.filter_cons, h] using ih
    · simpa [sentBreakpoints, DebugBreakpoint.mk0, DebugBreakpoint.enabled,
        DebugBreakpoint.origin, List.filter_cons, h] using ih

/-- A fresh logical breakpoint keeps its declaration's line. -/
theorem mk0_line (o : SourceBreakpoint) : (DebugBreakpoint.mk0 o).line = o.line := rfl

/-- **C2**: for one resource whose store declarations sit on pairwise distinct
lines (the store holds at most one declaration per line), the collection sent
to the adapter in the `setBreakpoints` request built by the breakpoint resync
equals the enabled members of the line-deduplicated set of all locally
declared breakpoints of the resource, and it never contains two breakpoints on
the same line. -/
theorem sent_equals_enabled_dedup (s : Session) (store : BreakpointStore)
    (uri : String) (sourceModified : Bool) (resp : List RawBreakpoint)
    (hnd : ((findMarkersFor store uri).map SourceBreakpoint.line).Nodup) :
    (updateBreakpointsUri s store uri sourceModified resp).2 =
      Request.setBreakpoints uri sourceModified
        (sentBreakpoints (findMarkersFor store uri)) ∧
    sentBreakpoints (findMarkersFor store uri) =
      ((dedupBreakpoints ((findMarkersFor store uri).map DebugBreakpoint.mk0)).filter
        (·.enabled)).map (·.origin) ∧
    ((sentBreakpoints (findMarkersFor store uri)).map SourceBreakpoint.line).Nodup := by
  have hlines : (((findMarkersFor store uri).map DebugBreakpoint.mk0).map
      DebugBreakpoint.line).Nodup := by
    rw [List.map_map]
    simpa [Function.comp, mk0_line] using hnd
  refine ⟨rfl, ?_, ?_⟩
  · rw [dedup_eq_self_of_nodup_lines _ hlines]
    rfl
  · rw [sentBreakpoints_eq_filter]
    exact List.Nodup.sublist (List.Sublist.map _ (List.filter_sublist _)) hnd

/-- Witness for `sent_equals_enabled_dedup` on a store with one enabled
declaration on line 3 of the resource. -/
theorem sent_equals_enabled_dedup_witness :
    ((findMarkersFor oneMarkerStore "file:///a.ts").map SourceBreakpoint.line).Nodup ∧
    ((updateBreakpointsUri initializedSession oneMarkerStore "file:///a.ts" true []).2 =
      Request.setBreakpoints "file:///a.ts" true
        (sentBreakpoints (findMarkersFor oneMarkerStore "file:///a.ts")) ∧
    sentBreakpoints (findMarkersFor oneMarkerStore "file:///a.ts") =
      ((dedupBreakpoints ((findMarkersFor oneMarkerStore "file:///a.ts").map
        DebugBreakpoint.mk0)).filter (·.enabled)).map (·.origin) ∧
    ((sentBreakpoints (findMarkersFor oneMarkerStore "file:///a.ts")).map
      SourceBreakpoint.line).Nodup) :=
  ⟨by decide,
    sent_equals_enabled_dedup initializedSession oneMarkerStore "file:///a.ts" true []
      (by decide)⟩

/-! ## C1: the derived session state -/

/-- **C1 counterexample**: a reachable, initialized, non-disposed session in
which thread 7 is marked stopped but the derived state is Running, because the
current thread (3, kept current by `preserveFocusHint`) is not stopped — the
derived state is not "Stopped iff at least one thread is stopped". -/
theorem state_running_despite_stopped_thread :
    stoppedNotFocusedSession.disposed = false ∧
    stoppedNotFocusedSession.initialized = true ∧
    stoppedNotFocusedSession.threads.any (fun q => q.2.stopped) = true ∧
    stoppedNotFocusedSession.state = DebugState.Running := by
  decide

/-- `updateCurrentThread` always leaves a valid current-thread pointer: it
points at a member of the thread map, or at nothing only when the map is
empty. -/
theorem sessionInv_updateCurrentThread (s : Session) (sd : Option StoppedDetails) :
    sessionInv (updateCurrentThread s sd) = true := by
  unfold updateCurrentThread sessionInv pickCurrentThread
  cases chooseFocusThread sd s.currentThreadId with
  | none =>
    cases h : s.threads with
    | nil => simp
    | cons q rest => simp [alGet, List.find?]
  | some i =>
    by_cases h : (alGet s.threads i).isSome
    · simp [h]
    · simp only [h, if_false]
      cases hh : s.threads with
      | nil => simp
      | cons q rest => simp [alGet, List.find?]

theorem sessionInv_updateThreadsOnce (s : Session)
    (resp : Except DebugError (List RawThread)) (sd : Option StoppedDetails)
    (h : sessionInv s = true) : sessionInv (updateThreadsOnce s resp sd) = true := by
  cases resp with
  | ok raws => exact sessionInv_updateCurrentThread _ _
  | error e => exact h

/-- The pointer invariant is preserved by every processed
`stopped`/`continued`/`thread` event. -/
theorem sessionInv_processEvent (s : Session) (e : SessionEvent)
    (h : sessionInv s = true) : sessionInv (processEvent s e) = true := by
  cases e with
  | stopped d resp => exact sessionInv_updateThreadsOnce s resp (some d) h
  | continued atc tid =>
    by_cases hc : atc != some false
    · simpa [processEvent, hc] using sessionInv_updateCurrentThread _ _
    · simpa [processEvent, hc] using sessionInv_updateCurrentThread _ _
  | threadStarted resp => exact sessionInv_updateThreadsOnce s resp none h
  | threadExited tid => exact sessionInv_updateCurrentThread _ _

theorem sessionInv_foldl (s : Session) (evs : List SessionEvent)
    (h : sessionInv s = true) : sessionInv (evs.foldl processEvent s) = true := by
  induction evs generalizing s with
  | nil => exact h
  | cons e rest ih => exact ih _ (sessionInv_processEvent s e h)

/-- Under the pointer invariant, an initialized live session's derived state is
decided by the current thread alone. -/
theorem state_eq_currentThread_stopped (s : Session) (hinv : sessionInv s = true)
    (hd : s.disposed = false) (hi : s.initialized = true) :
    (s.state = DebugState.Stopped ↔
      ∃ t, s.currentThread = some t ∧ t.stopped = true) := by
  unfold Session.state
  rw [hd, hi]
  cases hct : s.currentThread with
  | some t =>
    by_cases hst : t.stopped
    · simp only [hst, if_true, if_false, Bool.not_true]
      exact ⟨fun _ => ⟨t, rfl, hst⟩, fun _ => by simp⟩
    · simp only [hst, if_false, Bool.not_true]
      constructor
      · intro hcon
        simp at hcon
      · rintro ⟨t', ht', hst'⟩
        cases Option.some.inj ht'
        exact absurd hst' (by simpa using hst)
  | none =>
    have hempty : s.threads = [] := by
      unfold sessionInv at hinv
      cases hcid : s.currentThreadId with
      | none =>
        rw [hcid] at hinv
        simpa using hinv
      | some i =>
        rw [hcid] at hinv
        unfold Session.currentThread at hct
        rw [hcid] at hct
        simp at hct
        have hinv' : (alGet s.threads i).isSome = true := hinv
        rw [hct] at hinv'
        simp at hinv'
    simp [hempty]

/-- **C1 amended**: after every sequence of processed
`stopped`/`continued`/`thread` events on a session whose current-thread
pointer is valid, a non-disposed initialized session's derived state is
Stopped iff its *current* thread is marked stopped; a stopped thread that is
not current does not make the state Stopped, and when no current thread
exists the thread map is empty, so the state is Running. -/
theorem state_stopped_iff_current_stopped (s0 : Session) (evs : List SessionEvent)
    (hinv : sessionInv s0 = true)
    (hd : (evs.foldl processEvent s0).disposed = false)
    (hi : (evs.foldl processEvent s0).initialized = true) :
    ((evs.foldl processEvent s0).state = DebugState.Stopped ↔
      ∃ t, (evs.foldl processEvent s0).currentThread = some t ∧ t.stopped = true) :=
  state_eq_currentThread_stopped _ (sessionInv_foldl s0 evs hinv) hd hi

/-- Witness for `state_stopped_iff_current_stopped`: one focus-taking `stopped`
event for thread 7 on a fresh initialized session. -/
theorem state_stopped_iff_current_stopped_witness :
    (sessionInv initializedSession = true ∧
      (([SessionEvent.stopped { threadId := some 7 } (.ok [{ id := 7 }])].foldl
        processEvent initializedSession).disposed = false) ∧
      (([SessionEvent.stopped { threadId := some 7 } (.ok [{ id := 7 }])].foldl
        processEvent initializedSession).initialized = true)) ∧
    (([SessionEvent.stopped { threadId := some 7 } (.ok [{ id := 7 }])].foldl
        processEvent initializedSession).state = DebugState.Stopped ↔
      ∃ t, ([SessionEvent.stopped { threadId := some 7 } (.ok [{ id := 7 }])].foldl
        processEvent initializedSession).currentThread = some t ∧ t.stopped = true) :=
  ⟨⟨by decide, by decide, by decide⟩,
    state_stopped_iff_current_stopped initializedSession
      [SessionEvent.stopped { threadId := some 7 } (.ok [{ id := 7 }])]
      (by decide) (by decide) (by decide)⟩

/-! ## C5: the configure sequence -/

theorem updateBreakpoints_foldl_requests (uris : List String) (store : BreakpointStore)
    (sm : Bool) (resps : String → List RawBreakpoint) (s : Session)
    (acc : List Request) :
    (uris.foldl
      (fun acc u =>
        ((updateBreakpointsUri acc.1 store u sm (resps u)).1,
         acc.2 ++ [(updateBreakpointsUri acc.1 store u sm (resps u)).2])) (s, acc)).2 =
      acc ++ uris.map (fun u =>
        Request.setBreakpoints u sm (sentBreakpoints (findMarkersFor store u))) := by
  induction uris generalizing s acc with
  | nil => simp
  | cons u rest ih =>
    rw [List.foldl_cons, ih]
    simp [updateBreakpointsUri, sentBreakpoints]

theorem updateBreakpoints_foldl_capabilities (uris : List String)
    (store : BreakpointStore) (sm : Bool) (resps : String → List RawBreakpoint)
    (s : Session) (acc : List Request) :
    (uris.foldl
      (fun acc u =>
        ((updateBreakpointsUri acc.1 store u sm (resps u)).1,
         acc.2 ++ [(updateBreakpointsUri acc.1 store u sm (resps u)).2])) (s, acc)).1.capabilities =
      s.capabilities := by
  induction uris generalizing s acc with
  | nil => rfl
  | cons u rest ih =>
    rw [List.foldl_cons, ih]
    rfl

/-- **C5**: on the adapter's `initialized` event the configure sequence sends,
in order, one `setBreakpoints` request per resource with a declared breakpoint
(each with `sourceModified = false` and carrying that resource's enabled
declarations), then `configurationDone` — present in the request trace iff the
stored capability `supportsConfigurationDoneRequest` is true — then marks
`initialized = true` and issues exactly one `threads` request, which happens
whether or not the capability flag is set. -/
theorem configure_request_order (s : Session) (store : BreakpointStore)
    (resps : String → List RawBreakpoint)
    (threadsResp : Except DebugError (List RawThread)) :
    (configure s store resps threadsResp).2 =
      (getUris store).map (fun u =>
        Request.setBreakpoints u false (sentBreakpoints (findMarkersFor store u))) ++
      (if supportsConfigurationDone s.capabilities then [Request.configurationDone]
       else []) ++ [Request.threads] ∧
    (configure s store resps threadsResp).1.initialized = true ∧
    (configure s store resps threadsResp).2.count Request.threads = 1 ∧
    (Request.configurationDone ∈ (configure s store resps threadsResp).2 ↔
      supportsConfigurationDone s.capabilities = true) := by
  have hcaps : (updateBreakpoints s store none false resps).1.capabilities =
      s.capabilities :=
    updateBreakpoints_foldl_capabilities (getUris store) store false resps s []
  have hreqs : (updateBreakpoints s store none false resps).2 =
      (getUris store).map (fun u =>
        Request.setBreakpoints u false (sentBreakpoints (findMarkersFor store u))) :=
    updateBreakpoints_foldl_requests (getUris store) store false resps s []
  have htrace : (configure s store resps threadsResp).2 =
      (getUris store).map (fun u =>
        Request.setBreakpoints u false (sentBreakpoints (findMarkersFor store u))) ++
      (if supportsConfigurationDone s.capabilities then [Request.configurationDone]
       else []) ++ [Request.threads] := by
    show (updateBreakpoints s store none false resps).2 ++ _ ++ _ = _
    rw [hreqs, hcaps]
  refine ⟨htrace, ?_, ?_, ?_⟩
  · show (updateThreadsOnce _ threadsResp none).initialized = true
    cases threadsResp with
    | ok raws => rfl
    | error e => rfl
  · rw [htrace]
    have h1 : ((getUris store).map (fun u =>
        Request.setBreakpoints u false
          (sentBreakpoints (findMarkersFor store u)))).count Request.threads = 0 := by
      rw [List.count_eq_zero]
      intro hmem
      rcases List.mem_map.mp hmem with ⟨u, _, hu⟩
      cases hu
    have h2 : (if supportsConfigurationDone s.capabilities then
        [Request.configurationDone] else []).count Request.threads = 0 := by
      by_cases hc : supportsConfigurationDone s.capabilities
      · simp [hc, List.count_cons]
      · simp [hc]
    simp [List.count_append, h1, h2, List.count_cons]
  · rw [htrace]
    have h1 : Request.configurationDone ∉ (getUris store).map (fun u =>
        Request.setBreakpoints u false (sentBreakpoints (findMarkersFor store u))) := by
      intro hmem
      rcases List.mem_map.mp hmem with ⟨u, _, hu⟩
      cases hu
    by_cases hc : supportsConfigurationDone s.capabilities
    · simp [hc]
    · simp [hc, h1]

/-! ## C6: launch/attach failure -/

/-- **C6**: when the `launch` (or `attach`) request fails after a successful
`initialize`, the session fires a local `exited` event on its own connection,
the promise returned by `start` rejects with the original failure, and the
launch/attach request is sent exactly once — no retry. -/
theorem start_launch_failure (cfg : DebugConfiguration) (caps : Capabilities)
    (err : DebugError) :
    "exited" ∈ (start cfg (.ok caps) (.error err)).firedEvents ∧
    (start cfg (.ok caps) (.error err)).result = .error err ∧
    (start cfg (.ok caps) (.error err)).requests.countP Request.isLaunchOrAttach = 1 := by
  by_cases h : cfg.request = "attach" <;>
    simp [start, launchOrAttach, h, List.countP_cons, Request.isLaunchOrAttach]

/-! ## C7: resilience and serialization of updateThreads -/

/-- **C7**: every `updateThreads` operation resolves (never rejects); when the
underlying `threads` request fails the session — in particular its thread map —
is left exactly as it was; and a new call is chained behind every operation
already in flight: it is appended at the tail of the pending chain and runs
only after all previously pending operations have completed. -/
theorem updateThreads_resilient_and_serialized :
    (∀ (s : Session) (resp : Except DebugError (List RawThread))
        (sd : Option StoppedDetails), ∃ s', updateThreadsTry s resp sd = .ok s') ∧
    (∀ (s : Session) (e : DebugError) (sd : Option StoppedDetails),
      updateThreadsTry s (.error e) sd = .ok s) ∧
    (∀ (pending : List PendingOp) (sd : Option StoppedDetails),
      enqueueUpdateThreads pending sd = pending ++ [⟨sd⟩]) ∧
    (∀ (s : Session) (ops : List (PendingOp × Except DebugError (List RawThread)))
        (op : PendingOp × Except DebugError (List RawThread)),
      runPendingThreads s (ops ++ [op]) =
        updateThreadsOnce (runPendingThreads s ops) op.2 op.1.stoppedDetails) := by
  refine ⟨?_, ?_, ?_, ?_⟩
  · intro s resp sd
    cases resp with
    | ok raws => exact ⟨_, rfl⟩
    | error e => exact ⟨s, rfl⟩
  · intro s e sd
    rfl
  · intro pending sd
    rfl
  · intro s ops op
    simp [runPendingThreads, List.foldl_append]

/-! ## C8: configuration disambiguator numbering -/

theorem nextConfigurationId_after (st : ManagerState) (name : String) (v : Nat) :
    nextConfigurationId
      { st with configurationIds := alSet st.configurationIds name v } name = v + 1 := by
  unfold nextConfigurationId
  rw [alGet_alSet_self]

theorem resolveConfiguration_fresh_id (st : ManagerState) (cfg : DebugConfiguration)
    (h : cfg.__resovled = false) :
    (resolveConfiguration st cfg).1.__configurationId =
      some (nextConfigurationId st cfg.name) := by
  rw [resolveConfiguration, if_neg (by simp [h])]

theorem resolveConfiguration_fresh_state (st : ManagerState) (cfg : DebugConfiguration)
    (h : cfg.__resovled = false) :
    (resolveConfiguration st cfg).2 =
      { st with
        configurationIds := alSet st.configurationIds cfg.name (nextConfigurationId st cfg.name) } := by
  rw [resolveConfiguration, if_neg (by simp [h])]

theorem resolveSeq_ids (cfg : DebugConfiguration) (h : cfg.__resovled = false) :
    ∀ (n : Nat) (st : ManagerState),
      (resolveSeq st cfg n).1 =
        (List.range n).map (fun i => some (nextConfigurationId st cfg.name + i)) := by
  intro n
  induction n with
  | zero => intro st; rfl
  | succ n ih =>
    intro st
    rw [resolveSeq]
    rw [resolveConfiguration_fresh_id st cfg h, resolveConfiguration_fresh_state st cfg h,
      ih, nextConfigurationId_after]
    rw [List.range_succ_eq_map, List.map_cons, List.map_map]
    show some (nextConfigurationId st cfg.name) ::
        (List.range n).map (fun i => some (nextConfigurationId st cfg.name + 1 + i)) = _
    congr 1
    apply List.map_congr_left
    intro i _
    exact congrArg some (by omega)

theorem resolveSeq_nextId (cfg : DebugConfiguration) (h : cfg.__resovled = false) :
    ∀ (n : Nat) (st : ManagerState),
      nextConfigurationId (resolveSeq st cfg n).2 cfg.name =
        nextConfigurationId st cfg.name + n := by
  intro n
  induction n with
  | zero => intro st; rfl
  | succ n ih =>
    intro st
    rw [resolveSeq]
    show nextConfigurationId (resolveSeq (resolveConfiguration st cfg).2 cfg n).2 cfg.name = _
    rw [ih, resolveConfiguration_fresh_state st cfg h, nextConfigurationId_after]
    omega

theorem doDestroy_configurationIds (st : ManagerState) (sid : String) :
    (doDestroy st sid).configurationIds = st.configurationIds := by
  unfold doDestroy removeSession
  by_cases h : st.currentSessionId = some sid
  · rw [if_pos h]
  · rw [if_neg h]

theorem foldl_doDestroy_configurationIds (sids : List String) :
    ∀ st : ManagerState, (sids.foldl doDestroy st).configurationIds = st.configurationIds := by
  induction sids with
  | nil => intro st; rfl
  | cons sid rest ih =>
    intro st
    rw [List.foldl_cons, ih, doDestroy_configurationIds]

/-- **C8**: fresh starts of a configuration named "X" are assigned the
disambiguators 0, 1, 2, … in start order; destroying sessions does not touch
the numbering map, so a further fresh start after the `n` first ones (and any
destroys) is assigned `n`, never a reused number; and a configuration already
marked resolved passes through `resolveConfiguration` unchanged. -/
theorem configuration_numbering (cfg : DebugConfiguration) (st0 : ManagerState)
    (hfresh : cfg.__resovled = false)
    (hnone : alGet st0.configurationIds cfg.name = none) (n : Nat)
    (destroyed : List String) :
    (resolveSeq st0 cfg n).1 = (List.range n).map some ∧
    (destroyed.foldl doDestroy (resolveSeq st0 cfg n).2).configurationIds =
      (resolveSeq st0 cfg n).2.configurationIds ∧
    (resolveConfiguration (destroyed.foldl doDestroy (resolveSeq st0 cfg n).2)
      cfg).1.__configurationId = some n ∧
    (∀ (st : ManagerState) (c : DebugConfiguration), c.__resovled = true →
      resolveConfiguration st c = (c, st)) := by
  have hnext0 : nextConfigurationId st0 cfg.name = 0 := by
    unfold nextConfigurationId
    rw [hnone]
  have hfold : (destroyed.foldl doDestroy (resolveSeq st0 cfg n).2).configurationIds =
      (resolveSeq st0 cfg n).2.configurationIds :=
    foldl_doDestroy_configurationIds destroyed _
  refine ⟨?_, hfold, ?_, ?_⟩
  · rw [resolveSeq_ids cfg hfresh n st0, hnext0]
    simp
  · rw [resolveConfiguration_fresh_id _ cfg hfresh]
    have h1 : nextConfigurationId
        (destroyed.foldl doDestroy (resolveSeq st0 cfg n).2) cfg.name =
        nextConfigurationId (resolveSeq st0 cfg n).2 cfg.name := by
      unfold nextConfigurationId
      rw [hfold]
    rw [h1, resolveSeq_nextId cfg hfresh n st0, hnext0, Nat.zero_add]
  · intro st c hc
    rw [resolveConfiguration, if_pos hc]

/-- Witness for `configuration_numbering`: three fresh starts of "X" from an
empty manager, then three destroys, then a fourth start. -/
theorem configuration_numbering_witness :
    (freshConfigX.__resovled = false ∧
      alGet ({} : ManagerState).configurationIds freshConfigX.name = none) ∧
    ((resolveSeq {} freshConfigX 3).1 = (List.range 3).map some ∧
    ((["s1", "s2", "s3"].foldl doDestroy (resolveSeq {} freshConfigX 3).2).configurationIds =
      (resolveSeq {} freshConfigX 3).2.configurationIds) ∧
    (resolveConfiguration
      (["s1", "s2", "s3"].foldl doDestroy (resolveSeq {} freshConfigX 3).2)
      freshConfigX).1.__configurationId = some 3 ∧
    (∀ (st : ManagerState) (c : DebugConfiguration), c.__resovled = true →
      resolveConfiguration st c = (c, st))) :=
  ⟨⟨rfl, rfl⟩, configuration_numbering freshConfigX {} rfl rfl 3 ["s1", "s2", "s3"]⟩

/-! ## C9: capability merge -/

theorem objectAssign_not_mem (event : Capabilities) :
    ∀ (caps : Capabilities) (k : String), k ∉ alKeys event →
      alGet (objectAssign caps event) k = alGet caps k := by
  induction event with
  | nil =>
    intro caps k _
    rfl
  | cons p rest ih =>
    intro caps k h
    have hk : k ∉ alKeys rest := fun hm => h (by simp [alKeys] at hm ⊢; tauto)
    have hne : k ≠ p.1 := fun he => h (by simp [alKeys, he])
    have step : objectAssign caps (p :: rest) = objectAssign (alSet caps p.1 p.2) rest := rfl
    rw [step, ih (alSet caps p.1 p.2) k hk, alGet_alSet_ne _ _ _ _ hne]

/-- **C9**: processing a `capabilities` event merges the payload into the
stored capability set: every capability field not mentioned in the payload
retains exactly the value it had before the event. -/
theorem updateCapabilities_preserves_unmentioned (caps event : Capabilities)
    (k : String) (h : k ∉ alKeys event) :
    alGet (updateCapabilities caps event) k = alGet caps k :=
  objectAssign_not_mem event caps k h

/-- Witness for `updateCapabilities_preserves_unmentioned`: a partial update
with `supportsConfigurationDoneRequest` leaves `supportsRestartRequest`
untouched. -/
theorem updateCapabilities_preserves_unmentioned_witness :
    ("supportsRestartRequest" ∉
      alKeys [("supportsConfigurationDoneRequest", true)]) ∧
    alGet (updateCapabilities [("supportsRestartRequest", true)]
        [("supportsConfigurationDoneRequest", true)]) "supportsRestartRequest" =
      alGet [("supportsRestartRequest", true)] "supportsRestartRequest" :=
  ⟨by decide,
    updateCapabilities_preserves_unmentioned [("supportsRestartRequest", true)]
      [("supportsConfigurationDoneRequest", true)] "supportsRestartRequest" (by decide)⟩

/-! ## C10: the manager's getBreakpoints uri filter -/

theorem managerGetBreakpoints_of_some (st : ManagerState) (store : BreakpointStore)
    (uriArg : Option String) (sessionArg : Option Session) (s : Session)
    (hs : effectiveSession st sessionArg = some s) :
    managerGetBreakpoints st store uriArg sessionArg =
      if DebugState.Initializing.toNat < s.state.toNat then s.getBreakpoints none
      else (findMarkers store uriArg).map DebugBreakpoint.mk0 := by
  unfold managerGetBreakpoints
  rw [hs]

theorem managerGetBreakpoints_of_none (st : ManagerState) (store : BreakpointStore)
    (uriArg : Option String) (sessionArg : Option Session)
    (hs : effectiveSession st sessionArg = none) :
    managerGetBreakpoints st store uriArg sessionArg =
      (findMarkers store uriArg).map DebugBreakpoint.mk0 := by
  unfold managerGetBreakpoints
  rw [hs]

/-- **C10**: when the given-or-current session exists and its state is past
Initializing, `DebugSessionManager.getBreakpoints` returns all of that
session's breakpoints across every resource and ignores the uri argument (the
result with a uri equals the result without one); the uri filter is applied
through the store's `findMarkers` only when no such session is available —
when the effective session is missing or not past Initializing. -/
theorem managerGetBreakpoints_uri_filter (st : ManagerState) (store : BreakpointStore)
    (uriArg : Option String) (sessionArg : Option Session) :
    (∀ s : Session, effectiveSession st sessionArg = some s →
      DebugState.Initializing.toNat < s.state.toNat →
      managerGetBreakpoints st store uriArg sessionArg = s.getBreakpoints none ∧
      managerGetBreakpoints st store uriArg sessionArg =
        managerGetBreakpoints st store none sessionArg) ∧
    (∀ s : Session, effectiveSession st sessionArg = some s →
      ¬DebugState.Initializing.toNat < s.state.toNat →
      managerGetBreakpoints st store uriArg sessionArg =
        (findMarkers store uriArg).map DebugBreakpoint.mk0) ∧
    (effectiveSession st sessionArg = none →
      managerGetBreakpoints st store uriArg sessionArg =
        (findMarkers store uriArg).map DebugBreakpoint.mk0) := by
  refine ⟨?_, ?_, ?_⟩
  · intro s hs hpast
    constructor
    · rw [managerGetBreakpoints_of_some st store uriArg sessionArg s hs, if_pos hpast]
    · rw [managerGetBreakpoints_of_some st store uriArg sessionArg s hs,
        managerGetBreakpoints_of_some st store none sessionArg s hs,
        if_pos hpast, if_pos hpast]
  · intro s hs hpast
    rw [managerGetBreakpoints_of_some st store uriArg sessionArg s hs, if_neg hpast]
  · intro hs
    exact managerGetBreakpoints_of_none st store uriArg sessionArg hs

/-- Witness for `managerGetBreakpoints_uri_filter`: a Running session given
explicitly; the call with a uri argument returns all of the session's
breakpoints and equals the call without a uri. -/
theorem managerGetBreakpoints_uri_filter_witness :
    (effectiveSession {} (some initializedSession) = some initializedSession ∧
      DebugState.Initializing.toNat < initializedSession.state.toNat) ∧
    (managerGetBreakpoints {} oneMarkerStore (some "file:///a.ts")
        (some initializedSession) = initializedSession.getBreakpoints none ∧
      managerGetBreakpoints {} oneMarkerStore (some "file:///a.ts")
        (some initializedSession) =
      managerGetBreakpoints {} oneMarkerStore none (some initializedSession)) :=
  ⟨⟨rfl, by decide⟩,
    (managerGetBreakpoints_uri_filter {} oneMarkerStore (some "file:///a.ts")
      (some initializedSession)).1 initializedSession rfl (by decide)⟩

end Theia
